import Mathlib

/-!
Shallow embedding of `src/basic_parser.rs`, a minimal recursive-descent
parsing toolkit.  The mutable `Peekable<impl Iterator<Item = char>>` stream
is modelled as an explicit `List Char` threaded through every operation:
each function returns its result together with the remaining stream.
Panics (`panic!`) are modelled as a `fatal` result carrying the panic
message; `Option::None` is modelled as an `absent` result carrying the
stream as the mutable stream is left behind by the Rust code.  String
length is measured in characters (the source counts bytes; the two agree
on ASCII input).
-/

/-- Result of running a parsing operation on a stream: `ok v s` is
`Some(v)` with remaining stream `s`, `absent s` is `None` with remaining
stream `s`, and `fatal msg` models a `panic!` with the given message. -/
inductive PResult (α : Type) where
  | ok : α → List Char → PResult α
  | absent : List Char → PResult α
  | fatal : String → PResult α
deriving DecidableEq, Repr

deriving instance DecidableEq for Except

/-- `fn accept_if(predicate, stream) -> Option<char>`: peek the next
character; if absent return `None`; if the predicate rejects it return
`None` without consuming; otherwise consume exactly that character and
return it.  The second component is the remaining stream. -/
def accept_if (p : Char → Bool) (s : List Char) : Option Char × List Char :=
  match s with
  | [] => (none, s)
  | c :: cs => if p c then (some c, cs) else (none, s)

/-- The `while let Some(_) = eat_space() {}` loop inside
`Whitespace::parse`: greedily consume whitespace characters.  The call to
`accept_if(char::is_whitespace, ..)` is inlined into the pattern match so
that the recursion is structural. -/
def wsLoop : List Char → List Char
  | [] => []
  | c :: cs => if c.isWhitespace then wsLoop cs else c :: cs

/-- `impl Parse for Whitespace`: require one whitespace character via
`accept_if`, then greedily consume the rest. -/
def whitespaceParse (s : List Char) : Option Unit × List Char :=
  match accept_if Char.isWhitespace s with
  | (some _, s1) => (some (), wsLoop s1)
  | (none, s1) => (none, s1)

/-- Ambient whitespace skipping: calling `Whitespace::parse(stream)` and
discarding its result, keeping only the stream. -/
def skipWs (s : List Char) : List Char :=
  (whitespaceParse s).2

/-- `pub fn maybe_syntax(syntax, stream) -> Option<()>` (the trailing part
of the source name is shortened): accept the specific character `sym` if
present, then skip ambient whitespace; on rejection consume nothing. -/
def maybe_syn (sym : Char) (s : List Char) : Option Unit × List Char :=
  match accept_if (fun c => c == sym) s with
  | (some _, s1) => (some (), skipWs s1)
  | (none, s1) => (none, s1)

/-- `pub fn require_syntax(syntax, stream)`: like `maybe_syn` but absence
panics, reporting the expected character and the character actually found
(or `EOL` when the stream is exhausted). -/
def require_syn (sym : Char) (s : List Char) : PResult Unit :=
  match maybe_syn sym s with
  | (some _, s1) => .ok () s1
  | (none, s1) =>
    let found := match s1.head? with
      | some c => String.mk [c]
      | none => "EOL"
    .fatal ("parse error: expecting `" ++ String.mk [sym] ++ "' but found `" ++ found ++ "'")

-- Basic stream lemmas.

theorem accept_if_none_stream (p : Char → Bool) (s s1 : List Char)
    (h : accept_if p s = (none, s1)) : s1 = s := by
  cases s with
  | nil =>
    simp only [accept_if, Prod.mk.injEq] at h
    exact h.2.symm
  | cons c cs =>
    by_cases hp : p c
    · simp [accept_if, hp] at h
    · simp only [accept_if, hp, Bool.false_eq_true, if_false, Prod.mk.injEq] at h
      exact h.2.symm

theorem accept_if_some (p : Char → Bool) (s s1 : List Char) (c : Char)
    (h : accept_if p s = (some c, s1)) :
    s = c :: s1 ∧ p c = true := by
  cases s with
  | nil => simp [accept_if] at h
  | cons d ds =>
    by_cases hp : p d
    · simp only [accept_if, hp, if_true, Prod.mk.injEq, Option.some.injEq] at h
      obtain ⟨rfl, rfl⟩ := h
      exact ⟨rfl, hp⟩
    · simp [accept_if, hp] at h

theorem wsLoop_eq_dropWhile (s : List Char) :
    wsLoop s = s.dropWhile Char.isWhitespace := by
  induction s with
  | nil => rfl
  | cons c cs ih =>
    by_cases hc : c.isWhitespace
    · simp [wsLoop, hc, List.dropWhile, ih]
    · simp [wsLoop, hc, List.dropWhile]

theorem skipWs_eq_dropWhile (s : List Char) :
    skipWs s = s.dropWhile Char.isWhitespace := by
  cases s with
  | nil => rfl
  | cons c cs =>
    by_cases hc : c.isWhitespace
    · simp [skipWs, whitespaceParse, accept_if, hc, wsLoop_eq_dropWhile, List.dropWhile]
    · simp [skipWs, whitespaceParse, accept_if, hc, List.dropWhile]

theorem dropWhile_length_le (p : Char → Bool) (s : List Char) :
    (s.dropWhile p).length ≤ s.length := by
  induction s with
  | nil => simp
  | cons c cs ih =>
    by_cases hc : p c
    · simp only [List.dropWhile, hc, if_true]
      exact Nat.le_trans ih (Nat.le_succ _)
    · simp [List.dropWhile, hc]

theorem skipWs_length (s : List Char) : (skipWs s).length ≤ s.length := by
  rw [skipWs_eq_dropWhile]
  exact dropWhile_length_le _ _

/-- C1: `accept_if` on an exhausted stream returns absence; on a stream
whose next character the predicate rejects it returns absence with the
remaining sequence unchanged (no character consumed); and when the
predicate accepts the next character it consumes exactly that one
character and returns it. -/
theorem accept_if_spec (p : Char → Bool) (s : List Char) :
    (s = [] → accept_if p s = (none, s)) ∧
    (∀ c cs, s = c :: cs → p c = false → accept_if p s = (none, s)) ∧
    (∀ c cs, s = c :: cs → p c = true → accept_if p s = (some c, cs)) := by
  refine ⟨?_, ?_, ?_⟩
  · rintro rfl; rfl
  · rintro c cs rfl hp; simp [accept_if, hp]
  · rintro c cs rfl hp; simp [accept_if, hp]

theorem accept_if_spec_witness :
    accept_if Char.isDigit [] = (none, []) ∧
    accept_if Char.isDigit ['a', 'b'] = (none, ['a', 'b']) ∧
    accept_if Char.isDigit ['1', 'b'] = (some '1', ['b']) :=
  ⟨(accept_if_spec Char.isDigit []).1 rfl,
   (accept_if_spec Char.isDigit ['a', 'b']).2.1 'a' ['b'] rfl (by decide),
   (accept_if_spec Char.isDigit ['1', 'b']).2.2 '1' ['b'] rfl (by decide)⟩

/-- C9: ambient whitespace skipping is idempotent: skipping twice in a row
leaves the same stream as skipping once, so the second invocation consumes
nothing. -/
theorem skipWs_idem (s : List Char) : skipWs (skipWs s) = skipWs s := by
  simp only [skipWs_eq_dropWhile]
  induction s with
  | nil => rfl
  | cons c cs ih =>
    by_cases hc : c.isWhitespace
    · simpa [List.dropWhile, hc] using ih
    · simp [List.dropWhile, hc]

/-- C8: `require_syn` on an expected character: if the character is
present it is consumed together with trailing ambient whitespace and the
call returns normally; if absent the call is fatal, reporting the expected
character and the character actually found, or `EOL` when the stream is
exhausted. -/
theorem require_syn_spec (sym : Char) (s : List Char) :
    (∀ cs, s = sym :: cs → require_syn sym s = .ok () (skipWs cs)) ∧
    (∀ c cs, s = c :: cs → (c == sym) = false →
      require_syn sym s =
        .fatal ("parse error: expecting `" ++ String.mk [sym] ++ "' but found `" ++ String.mk [c] ++ "'")) ∧
    (s = [] →
      require_syn sym s =
        .fatal ("parse error: expecting `" ++ String.mk [sym] ++ "' but found `" ++ "EOL" ++ "'")) := by
  refine ⟨?_, ?_, ?_⟩
  · rintro cs rfl
    simp [require_syn, maybe_syn, accept_if]
  · rintro c cs rfl hn
    simp [require_syn, maybe_syn, accept_if, hn]
  · rintro rfl
    simp [require_syn, maybe_syn, accept_if]

theorem require_syn_spec_witness :
    require_syn ',' [',', ' ', 'x'] = .ok () ['x'] ∧
    require_syn ',' [';'] = .fatal "parse error: expecting `,' but found `;'" ∧
    require_syn ',' [] = .fatal "parse error: expecting `,' but found `EOL'" := by
  refine ⟨?_, ?_, ?_⟩
  · have h := (require_syn_spec ',' [',', ' ', 'x']).1 [' ', 'x'] rfl
    rw [h]; decide
  · have h := (require_syn_spec ',' [';']).2.1 ';' [] rfl (by decide)
    rw [h]; decide
  · have h := (require_syn_spec ',' []).2.2 rfl
    rw [h]; decide

/-- The `Parse` trait: a parseable type is modelled as a parse function on
streams together with the contract stated in the source comment: "if the
accept method returns None, the iterator is not advanced; otherwise it is
advanced beyond the accepted part of the input".  `name` models
`std::any::type_name::<T>()`, used by `require`'s panic message. -/
structure Parser (α : Type) where
  name : String
  parse : List Char → PResult α
  ok_consumes : ∀ s v s1, parse s = .ok v s1 → s1.length ≤ s.length
  absent_stream : ∀ s s1, parse s = .absent s1 → s1 = s

/-- `pub fn maybe<T: Parse>(stream) -> Option<T>`: just `T::parse`. -/
def maybe (p : Parser α) (s : List Char) : PResult α :=
  p.parse s

/-- `pub fn require<T: Parse>(stream) -> T`: parse, panicking when the
value is absent; a value is returned unchanged and a panic propagates. -/
def require (p : Parser α) (s : List Char) : PResult α :=
  match p.parse s with
  | .ok v s1 => .ok v s1
  | .absent _ => .fatal ("parse error: expected `" ++ p.name ++ "'")
  | .fatal m => .fatal m

theorem require_ok (p : Parser α) (s : List Char) (v : α) (s1 : List Char)
    (hr : require p s = .ok v s1) : p.parse s = .ok v s1 := by
  cases h : p.parse s with
  | ok w s2 => simp only [require, h] at hr; exact hr
  | absent s2 => simp [require, h] at hr
  | fatal m => simp [require, h] at hr

theorem require_fatal_of_absent (p : Parser α) (s s1 : List Char)
    (h : p.parse s = .absent s1) :
    require p s = .fatal ("parse error: expected `" ++ p.name ++ "'") := by
  simp [require, h]

theorem require_not_absent (p : Parser α) (s s1 : List Char)
    (hr : require p s = .absent s1) : False := by
  cases h : p.parse s with
  | ok w s2 => simp [require, h] at hr
  | absent s2 => simp [require, h] at hr
  | fatal m => simp [require, h] at hr

/-- The `Token` trait: `ident` models the `IDENT` constructor, `maxLen`
models `MAX_LEN` (default 255), `accept` the continuation predicate,
`accept1st` models `accept_1st` (defaulting to `accept`), `escape` models
the `ESCAPE` trigger (default the NUL sentinel) and `escaped` the
escaped-character predicate (default: reject every character). -/
structure TokenClass (α : Type) where
  ident : List Char → α
  maxLen : Nat := 255
  accept : Char → Bool
  accept1st : Char → Bool := accept
  escape : Char := '\x00'
  escaped : Char → Bool := fun _ => false

/-- The `loop` inside `impl<T: Token> Parse for T`, carrying the
accumulated token text `str`.  The three `accept_if` calls of the source
are inlined into pattern matches so that the recursion is structural; the
`str.len() >= T::MAX_LEN` check that the source performs once after the
`if`/`else if` chain is placed after the push in each of the two branches
that push, which is the same control flow. -/
def tokenLoop (T : TokenClass α) : List Char → List Char → Except String (List Char × List Char)
  | str, [] => .ok (str, [])
  | str, c :: cs =>
    if T.accept c then
      if (str ++ [c]).length ≥ T.maxLen then .error "tokenizer: exceeded safety margin"
      else tokenLoop T (str ++ [c]) cs
    else if c == T.escape then
      match cs with
      | c2 :: cs2 =>
        if T.escaped c2 then
          if (str ++ [c2]).length ≥ T.maxLen then .error "tokenizer: exceeded safety margin"
          else tokenLoop T (str ++ [c2]) cs2
        else .error "tokenizer: illegal escape sequence"
      | [] => .error "tokenizer: illegal escape sequence"
    else .ok (str, c :: cs)

/-- `impl<T: Token> Parse for T`: accept the first character via
`accept_1st` (absence or rejection fails without consuming), run the
accumulation loop, then skip ambient whitespace and build the token value
with `IDENT`. -/
def tokenParse (T : TokenClass α) (s : List Char) : PResult α :=
  match accept_if T.accept1st s with
  | (none, s1) => .absent s1
  | (some c, s1) =>
    match tokenLoop T [c] s1 with
    | .error m => .fatal m
    | .ok (str, s2) => .ok (T.ident str) (skipWs s2)

-- Branch unfolding lemmas for `tokenLoop` (the equation compiler splits
-- the cons case on the shape of the tail, so these package the branches).

theorem tokenLoop_nil (T : TokenClass α) (str : List Char) :
    tokenLoop T str [] = .ok (str, []) := rfl

theorem tokenLoop_acc_over (T : TokenClass α) (str : List Char) (c : Char) (cs : List Char)
    (hac : T.accept c = true) (hlen : (str ++ [c]).length ≥ T.maxLen) :
    tokenLoop T str (c :: cs) = .error "tokenizer: exceeded safety margin" := by
  cases cs with
  | nil => rw [tokenLoop, if_pos hac, if_pos hlen]
  | cons c2 cs2 => rw [tokenLoop, if_pos hac, if_pos hlen]

theorem tokenLoop_acc_step (T : TokenClass α) (str : List Char) (c : Char) (cs : List Char)
    (hac : T.accept c = true) (hlen : ¬ (str ++ [c]).length ≥ T.maxLen) :
    tokenLoop T str (c :: cs) = tokenLoop T (str ++ [c]) cs := by
  cases cs with
  | nil => rw [tokenLoop.eq_3, if_pos hac, if_neg hlen]
  | cons c2 cs2 => rw [tokenLoop.eq_2, if_pos hac, if_neg hlen]

theorem tokenLoop_esc_over (T : TokenClass α) (str : List Char) (c c2 : Char) (cs2 : List Char)
    (hac : T.accept c = false) (hesc : (c == T.escape) = true) (hed : T.escaped c2 = true)
    (hlen : (str ++ [c2]).length ≥ T.maxLen) :
    tokenLoop T str (c :: c2 :: cs2) = .error "tokenizer: exceeded safety margin" := by
  rw [tokenLoop, if_neg (by simp [hac]), if_pos hesc, if_pos hed, if_pos hlen]

theorem tokenLoop_esc_step (T : TokenClass α) (str : List Char) (c c2 : Char) (cs2 : List Char)
    (hac : T.accept c = false) (hesc : (c == T.escape) = true) (hed : T.escaped c2 = true)
    (hlen : ¬ (str ++ [c2]).length ≥ T.maxLen) :
    tokenLoop T str (c :: c2 :: cs2) = tokenLoop T (str ++ [c2]) cs2 := by
  rw [tokenLoop, if_neg (by simp [hac]), if_pos hesc, if_pos hed, if_neg hlen]

theorem tokenLoop_esc_illegal (T : TokenClass α) (str : List Char) (c c2 : Char) (cs2 : List Char)
    (hac : T.accept c = false) (hesc : (c == T.escape) = true) (hed : T.escaped c2 = false) :
    tokenLoop T str (c :: c2 :: cs2) = .error "tokenizer: illegal escape sequence" := by
  rw [tokenLoop, if_neg (by simp [hac]), if_pos hesc, if_neg (by simp [hed])]

theorem tokenLoop_esc_eol (T : TokenClass α) (str : List Char) (c : Char)
    (hac : T.accept c = false) (hesc : (c == T.escape) = true) :
    tokenLoop T str [c] = .error "tokenizer: illegal escape sequence" := by
  rw [tokenLoop, if_neg (by simp [hac]), if_pos hesc]

theorem tokenLoop_stop (T : TokenClass α) (str : List Char) (c : Char) (cs : List Char)
    (hac : T.accept c = false) (hesc : (c == T.escape) = false) :
    tokenLoop T str (c :: cs) = .ok (str, c :: cs) := by
  cases cs with
  | nil => rw [tokenLoop, if_neg (by simp [hac]), if_neg (by simp [hesc])]
  | cons c2 cs2 => rw [tokenLoop, if_neg (by simp [hac]), if_neg (by simp [hesc])]

-- Loop invariants of the tokenizer, by functional induction on `tokenLoop`.

theorem tokenLoop_ok_stream (T : TokenClass α) (str s str1 s1 : List Char)
    (h : tokenLoop T str s = .ok (str1, s1)) : s1.length ≤ s.length := by
  induction str, s using tokenLoop.induct T with
  | case1 str =>
    rw [tokenLoop_nil] at h
    simp only [Except.ok.injEq, Prod.mk.injEq] at h
    simp [← h.2]
  | case2 str c cs hac hlen =>
    rw [tokenLoop_acc_over T str c cs hac hlen] at h
    simp at h
  | case3 str c cs hac hlen ih =>
    rw [tokenLoop_acc_step T str c cs hac hlen] at h
    have := ih h
    simp only [List.length_cons]
    omega
  | case4 str c hac hesc c2 cs2 hed hlen =>
    rw [tokenLoop_esc_over T str c c2 cs2 (by simpa using hac) hesc hed hlen] at h
    simp at h
  | case5 str c hac hesc c2 cs2 hed hlen ih =>
    rw [tokenLoop_esc_step T str c c2 cs2 (by simpa using hac) hesc hed hlen] at h
    have := ih h
    simp only [List.length_cons]
    omega
  | case6 str c hac hesc c2 cs2 hed =>
    rw [tokenLoop_esc_illegal T str c c2 cs2 (by simpa using hac) hesc (by simpa using hed)] at h
    simp at h
  | case7 str c hac hesc =>
    rw [tokenLoop_esc_eol T str c (by simpa using hac) hesc] at h
    simp at h
  | case8 str c cs hac hesc =>
    rw [tokenLoop_stop T str c cs (by simpa using hac) (by simpa using hesc)] at h
    simp only [Except.ok.injEq, Prod.mk.injEq] at h
    simp [← h.2]

theorem tokenLoop_guard (T : TokenClass α) (str s str1 s1 : List Char)
    (h : tokenLoop T str s = .ok (str1, s1)) :
    str1.length < T.maxLen ∨ str1 = str := by
  induction str, s using tokenLoop.induct T with
  | case1 str =>
    rw [tokenLoop_nil] at h
    simp only [Except.ok.injEq, Prod.mk.injEq] at h
    exact Or.inr h.1.symm
  | case2 str c cs hac hlen =>
    rw [tokenLoop_acc_over T str c cs hac hlen] at h
    simp at h
  | case3 str c cs hac hlen ih =>
    rw [tokenLoop_acc_step T str c cs hac hlen] at h
    rcases ih h with h1 | h1
    · exact Or.inl h1
    · subst h1
      refine Or.inl ?_
      simp only [List.length_append, List.length_cons, List.length_nil] at hlen ⊢
      omega
  | case4 str c hac hesc c2 cs2 hed hlen =>
    rw [tokenLoop_esc_over T str c c2 cs2 (by simpa using hac) hesc hed hlen] at h
    simp at h
  | case5 str c hac hesc c2 cs2 hed hlen ih =>
    rw [tokenLoop_esc_step T str c c2 cs2 (by simpa using hac) hesc hed hlen] at h
    rcases ih h with h1 | h1
    · exact Or.inl h1
    · subst h1
      refine Or.inl ?_
      simp only [List.length_append, List.length_cons, List.length_nil] at hlen ⊢
      omega
  | case6 str c hac hesc c2 cs2 hed =>
    rw [tokenLoop_esc_illegal T str c c2 cs2 (by simpa using hac) hesc (by simpa using hed)] at h
    simp at h
  | case7 str c hac hesc =>
    rw [tokenLoop_esc_eol T str c (by simpa using hac) hesc] at h
    simp at h
  | case8 str c cs hac hesc =>
    rw [tokenLoop_stop T str c cs (by simpa using hac) (by simpa using hesc)] at h
    simp only [Except.ok.injEq, Prod.mk.injEq] at h
    exact Or.inr h.1.symm

theorem tokenLoop_munch (T : TokenClass α) (s : List Char) : ∀ str : List Char,
    (∀ x ∈ s, (x == T.escape) = false) →
    str.length + (s.takeWhile T.accept).length < T.maxLen →
    tokenLoop T str s = .ok (str ++ s.takeWhile T.accept, s.dropWhile T.accept) := by
  induction s with
  | nil =>
    intro str _ _
    simp [tokenLoop_nil]
  | cons c cs ih =>
    intro str he hlen
    by_cases hac : T.accept c
    · have htw : (c :: cs).takeWhile T.accept = c :: cs.takeWhile T.accept := by
        simp [List.takeWhile, hac]
      have hdw : (c :: cs).dropWhile T.accept = cs.dropWhile T.accept := by
        simp [List.dropWhile, hac]
      rw [htw] at hlen
      have hlen1 : ¬ (str ++ [c]).length ≥ T.maxLen := by
        simp only [List.length_append, List.length_cons, List.length_nil] at hlen ⊢
        omega
      have hlen2 : (str ++ [c]).length + (cs.takeWhile T.accept).length < T.maxLen := by
        simp only [List.length_append, List.length_cons, List.length_nil] at hlen ⊢
        omega
      rw [tokenLoop_acc_step T str c cs hac hlen1,
        ih (str ++ [c]) (fun x hx => he x (List.mem_cons_of_mem _ hx)) hlen2,
        htw, hdw]
      simp
    · have hesc : (c == T.escape) = false := he c (List.mem_cons_self _ _)
      have hac' : T.accept c = false := by simpa using hac
      rw [tokenLoop_stop T str c cs hac' hesc]
      simp [List.takeWhile, List.dropWhile, hac']

-- Branch lemmas for `tokenParse`.

theorem tokenParse_none (T : TokenClass α) (s s1 : List Char)
    (ha : accept_if T.accept1st s = (none, s1)) : tokenParse T s = .absent s1 := by
  unfold tokenParse
  rw [ha]

theorem tokenParse_some_ok (T : TokenClass α) (s s1 : List Char) (c : Char)
    (str s2 : List Char) (ha : accept_if T.accept1st s = (some c, s1))
    (hl : tokenLoop T [c] s1 = .ok (str, s2)) :
    tokenParse T s = .ok (T.ident str) (skipWs s2) := by
  simp only [tokenParse, ha, hl]

theorem tokenParse_some_err (T : TokenClass α) (s s1 : List Char) (c : Char) (m : String)
    (ha : accept_if T.accept1st s = (some c, s1))
    (hl : tokenLoop T [c] s1 = .error m) :
    tokenParse T s = .fatal m := by
  simp only [tokenParse, ha, hl]

theorem tokenParse_ok_consumes (T : TokenClass α) (s : List Char) (v : α) (s1 : List Char)
    (h : tokenParse T s = .ok v s1) : s1.length ≤ s.length := by
  rcases ha : accept_if T.accept1st s with ⟨o, s'⟩
  cases o with
  | none =>
    rw [tokenParse_none T s s' ha] at h
    simp at h
  | some c =>
    cases hl : tokenLoop T [c] s' with
    | error m =>
      rw [tokenParse_some_err T s s' c m ha hl] at h
      simp at h
    | ok p =>
      obtain ⟨str, s2⟩ := p
      rw [tokenParse_some_ok T s s' c str s2 ha hl] at h
      simp only [PResult.ok.injEq] at h
      obtain ⟨-, rfl⟩ := h
      have h1 := skipWs_length s2
      have h2 := tokenLoop_ok_stream T [c] s' str s2 hl
      have h3 := (accept_if_some T.accept1st s s' c ha).1
      subst h3
      simp only [List.length_cons]
      omega

theorem tokenParse_absent_stream (T : TokenClass α) (s s1 : List Char)
    (h : tokenParse T s = .absent s1) : s1 = s := by
  rcases ha : accept_if T.accept1st s with ⟨o, s'⟩
  cases o with
  | none =>
    rw [tokenParse_none T s s' ha] at h
    simp only [PResult.absent.injEq] at h
    subst h
    exact accept_if_none_stream _ _ _ ha
  | some c =>
    cases hl : tokenLoop T [c] s' with
    | error m =>
      rw [tokenParse_some_err T s s' c m ha hl] at h
      simp at h
    | ok p =>
      obtain ⟨str, s2⟩ := p
      rw [tokenParse_some_ok T s s' c str s2 ha hl] at h
      simp at h

/-- A token class packaged as a `Parser`, fulfilling the source comment's
contract for `Parse` implementations. -/
def tokenParser (T : TokenClass α) (nm : String) : Parser α :=
  { name := nm, parse := tokenParse T,
    ok_consumes := tokenParse_ok_consumes T,
    absent_stream := tokenParse_absent_stream T }

-- Concrete token classes used as witnesses and counterexamples.

/-- Digit token class, all trait defaults kept. -/
def Td : TokenClass (List Char) := { ident := fun l => l, accept := Char.isDigit }

/-- Letter token class, all trait defaults kept. -/
def Tl : TokenClass (List Char) := { ident := fun l => l, accept := Char.isAlpha }

/-- Digit token class with escape trigger backslash and an
escaped-character predicate accepting every character. -/
def Tesc : TokenClass (List Char) :=
  { ident := fun l => l, accept := Char.isDigit, escape := '\\', escaped := fun _ => true }

/-- Digit token class with `MAX_LEN` overridden to 1. -/
def T1len : TokenClass (List Char) := { ident := fun l => l, maxLen := 1, accept := Char.isDigit }

/-- Token class whose first-character predicate (only `x`) differs from
its continuation predicate (digits). -/
def T1x : TokenClass (List Char) :=
  { ident := fun l => l, accept := Char.isDigit, accept1st := fun c => c == 'x' }

/-- C2 (amended): for inputs in which the token class's escape trigger
character does not occur, a successful token parse performs maximal munch:
it consumes exactly the longest prefix whose first character satisfies the
first-character predicate and whose remaining characters satisfy the
continuation predicate, yields that prefix as the token text, and then
skips ambient whitespace.  (The claim's unrestricted form fails for
escape-enabled classes, see `tokenParse_escape_breaks_munch`.) -/
theorem tokenParse_munch (T : TokenClass α) (c : Char) (cs : List Char)
    (h1 : T.accept1st c = true)
    (he : ∀ x ∈ c :: cs, (x == T.escape) = false)
    (hlen : 1 + (cs.takeWhile T.accept).length < T.maxLen) :
    tokenParse T (c :: cs) =
      .ok (T.ident (c :: cs.takeWhile T.accept)) (skipWs (cs.dropWhile T.accept)) := by
  have ha : accept_if T.accept1st (c :: cs) = (some c, cs) := by simp [accept_if, h1]
  have hloop := tokenLoop_munch T cs [c]
    (fun x hx => he x (List.mem_cons_of_mem _ hx)) (by simpa using hlen)
  rw [tokenParse_some_ok T (c :: cs) cs c ([c] ++ cs.takeWhile T.accept)
    (cs.dropWhile T.accept) ha hloop]
  simp

theorem tokenParse_munch_witness :
    tokenParse Td ['1', '2', '3', 'a', 'b', 'c'] = .ok ['1', '2', '3'] ['a', 'b', 'c'] := by
  have h := tokenParse_munch Td '1' ['2', '3', 'a', 'b', 'c'] (by decide) (by decide) (by decide)
  rw [h]
  decide

/-- C2 counterexample: for the escape-enabled digit class `Tesc` on input
`1\2x`, the parse succeeds with token text `12` and consumes the escape
sequence, so the successful parse does not consume (or return) the longest
prefix of accepted characters, which is just `1`. -/
theorem tokenParse_escape_breaks_munch :
    tokenParse Tesc ['1', '\\', '2', 'x'] = .ok ['1', '2'] ['x'] ∧
    '1' :: List.takeWhile Tesc.accept ['\\', '2', 'x'] = ['1'] ∧
    (['1', '2'] : List Char) ≠ ['1'] := by
  exact ⟨by decide, by decide, by decide⟩

/-- C3: in the tokenizer loop, when the next character is the escape
trigger (and is rejected by the continuation predicate), the trigger is
consumed, and the loop fails fatally with "illegal escape sequence" unless
the following character satisfies the escaped-character predicate; when it
does, only the escaped character is appended (the trigger is dropped) and
the loop continues past both characters. -/
theorem tokenLoop_escape_spec (T : TokenClass α) (str : List Char) (c : Char) (cs : List Char)
    (hacc : T.accept c = false) (hesc : (c == T.escape) = true) :
    (cs = [] → tokenLoop T str (c :: cs) = .error "tokenizer: illegal escape sequence") ∧
    (∀ c2 cs2, cs = c2 :: cs2 → T.escaped c2 = false →
      tokenLoop T str (c :: cs) = .error "tokenizer: illegal escape sequence") ∧
    (∀ c2 cs2, cs = c2 :: cs2 → T.escaped c2 = true →
      tokenLoop T str (c :: cs) =
        if (str ++ [c2]).length ≥ T.maxLen then Except.error "tokenizer: exceeded safety margin"
        else tokenLoop T (str ++ [c2]) cs2) := by
  refine ⟨?_, ?_, ?_⟩
  · rintro rfl
    exact tokenLoop_esc_eol T str c hacc hesc
  · rintro c2 cs2 rfl hed
    exact tokenLoop_esc_illegal T str c c2 cs2 hacc hesc hed
  · rintro c2 cs2 rfl hed
    by_cases hlen : (str ++ [c2]).length ≥ T.maxLen
    · rw [if_pos hlen]
      exact tokenLoop_esc_over T str c c2 cs2 hacc hesc hed hlen
    · rw [if_neg hlen]
      exact tokenLoop_esc_step T str c c2 cs2 hacc hesc hed hlen

theorem tokenLoop_escape_spec_witness :
    tokenLoop Tesc ['1'] ['\\', 'x', '2'] = tokenLoop Tesc ['1', 'x'] ['2'] ∧
    tokenLoop Tesc ['1'] ['\\'] = .error "tokenizer: illegal escape sequence" := by
  constructor
  · have h := (tokenLoop_escape_spec Tesc ['1'] '\\' ['x', '2'] (by decide) (by decide)).2.2
      'x' ['2'] rfl (by decide)
    rw [h, if_neg (by decide)]
    decide
  · exact (tokenLoop_escape_spec Tesc ['1'] '\\' [] (by decide) (by decide)).1 rfl

/-- C4 (amended): the "exceeded safety margin" check fires after each
append performed inside the loop, so a successful loop run either ends
with accumulated text strictly below `MAX_LEN` or appended nothing; the
first character, accepted before the loop, is not subject to the check
(see `token_first_char_unchecked`). -/
theorem tokenLoop_safety_margin (T : TokenClass α) (str s str1 s1 : List Char) :
    (tokenLoop T str s = .ok (str1, s1) → str1.length < T.maxLen ∨ str1 = str) ∧
    (∀ c cs, s = c :: cs → T.accept c = true → (str ++ [c]).length ≥ T.maxLen →
      tokenLoop T str s = .error "tokenizer: exceeded safety margin") := by
  constructor
  · exact tokenLoop_guard T str s str1 s1
  · rintro c cs rfl hac hlen
    exact tokenLoop_acc_over T str c cs hac hlen

theorem tokenLoop_safety_margin_witness :
    ((['1'] : List Char).length < Td.maxLen ∨ (['1'] : List Char) = ['1']) ∧
    tokenLoop T1len ['1'] ['2', 'x'] = .error "tokenizer: exceeded safety margin" :=
  ⟨(tokenLoop_safety_margin Td ['1'] [] ['1'] []).1 (by decide),
   (tokenLoop_safety_margin T1len ['1'] ['2', 'x'] [] []).2 '2' ['x'] rfl (by decide) (by decide)⟩

/-- C4 counterexample: with `MAX_LEN = 1`, a one-character token parses
successfully even though its text length already equals `MAX_LEN`: the
very first accepted character is not followed by the per-append check. -/
theorem token_first_char_unchecked :
    tokenParse T1len ['1'] = .ok ['1'] [] ∧
    ¬ ((['1'] : List Char).length < T1len.maxLen) := by
  exact ⟨by decide, by decide⟩

/-- C10: for a token class keeping the default escape configuration
(trigger `NUL`, escaped-character predicate rejecting everything), a
literal `NUL` in the stream at a continuation position (not accepted by
the continuation predicate) is consumed as an escape trigger and the
tokenizer fails fatally with "illegal escape sequence", instead of ending
the token and leaving the `NUL` unconsumed. -/
theorem tokenLoop_nul_escape_fatal (T : TokenClass α)
    (hesc : T.escape = '\x00') (hpred : ∀ c, T.escaped c = false)
    (hacc : T.accept '\x00' = false) (str cs : List Char) :
    tokenLoop T str ('\x00' :: cs) = .error "tokenizer: illegal escape sequence" := by
  have he : (('\x00' : Char) == T.escape) = true := by rw [hesc]; simp
  cases cs with
  | nil => exact tokenLoop_esc_eol T str '\x00' hacc he
  | cons c2 cs2 => exact tokenLoop_esc_illegal T str '\x00' c2 cs2 hacc he (hpred c2)

theorem tokenLoop_nul_escape_fatal_witness :
    tokenLoop Td ['1'] ['\x00', 'a'] = .error "tokenizer: illegal escape sequence" :=
  tokenLoop_nul_escape_fatal Td rfl (fun _ => rfl) (by decide) ['1'] ['a']

/-- `Option::map` lifted to parse results: a panic propagates. -/
def pmap (f : α → β) : PResult α → PResult β
  | .ok v s => .ok (f v) s
  | .absent s => .absent s
  | .fatal m => .fatal m

/-- `impl<T1: Token, T2: Parse> Parse for Result<T1, T2>`: peek one
character (exhausted input is absence); if `T1::accept` accepts it, parse
as `T1` and wrap as the primary outcome (`Ok`, here `Sum.inl`); otherwise
parse with the fallback parser and wrap as `Err` (`Sum.inr`). -/
def altParse (T1 : TokenClass α) (p2 : List Char → PResult β) (s : List Char) : PResult (α ⊕ β) :=
  match s with
  | [] => .absent s
  | c :: _ =>
    if T1.accept c then pmap Sum.inl (tokenParse T1 s)
    else pmap Sum.inr (p2 s)

/-- C5 (amended): two-way alternation peeks one character; exhausted input
fails with absence; the dispatch tests the peeked character with the first
class's continuation predicate `accept` — not its first-character
predicate `accept_1st` as the claim states (see
`alt_dispatch_on_continuation`); on acceptance it parses as the first
class wrapped as the primary outcome, otherwise it parses the fallback
type wrapped as the fallback outcome, which is itself absent if the
fallback rejects. -/
theorem altParse_spec (T1 : TokenClass α) (p2 : List Char → PResult β) (s : List Char) :
    (s = [] → altParse T1 p2 s = .absent s) ∧
    (∀ c cs, s = c :: cs → T1.accept c = true →
      altParse T1 p2 s = pmap Sum.inl (tokenParse T1 s)) ∧
    (∀ c cs, s = c :: cs → T1.accept c = false →
      altParse T1 p2 s = pmap Sum.inr (p2 s)) := by
  refine ⟨?_, ?_, ?_⟩
  · rintro rfl
    rfl
  · rintro c cs rfl hac
    simp [altParse, hac]
  · rintro c cs rfl hac
    simp [altParse, hac]

theorem altParse_spec_witness :
    altParse Td (tokenParse Tl) ['9', 'x'] = pmap Sum.inl (tokenParse Td ['9', 'x']) ∧
    altParse Td (tokenParse Tl) ['x', '9'] = pmap Sum.inr (tokenParse Tl ['x', '9']) :=
  ⟨(altParse_spec Td (tokenParse Tl) ['9', 'x']).2.1 '9' ['x'] rfl (by decide),
   (altParse_spec Td (tokenParse Tl) ['x', '9']).2.2 'x' ['9'] rfl (by decide)⟩

/-- C5 counterexample: the dispatch uses the first class's continuation
predicate, not its first-character predicate.  `T1x` continues on digits
but only starts on `x`; with a digit-class fallback on input `9`, the code
dispatches into `T1x` (because `9` is a digit), whose first-character
predicate rejects, so the whole alternation is absent — while the claimed
dispatch on the first-character predicate would take the fallback branch,
which succeeds on `9`. -/
theorem alt_dispatch_on_continuation :
    T1x.accept1st '9' = false ∧
    tokenParse Td ['9'] = .ok ['9'] [] ∧
    altParse T1x (tokenParse Td) ['9'] = .absent ['9'] :=
  ⟨by decide, by decide, by decide⟩

-- Branch lemmas for `maybe_syn` and consumption bounds used by the list loop.

theorem maybe_syn_none (sym : Char) (s s1 : List Char)
    (ha : accept_if (fun c => c == sym) s = (none, s1)) :
    maybe_syn sym s = (none, s1) := by
  unfold maybe_syn
  rw [ha]

theorem maybe_syn_some (sym : Char) (s s1 : List Char) (c : Char)
    (ha : accept_if (fun c => c == sym) s = (some c, s1)) :
    maybe_syn sym s = (some (), skipWs s1) := by
  unfold maybe_syn
  rw [ha]

theorem maybe_syn_some_length (sym : Char) (s s1 : List Char) (u : Unit)
    (h : maybe_syn sym s = (some u, s1)) : s1.length < s.length := by
  rcases ha : accept_if (fun c => c == sym) s with ⟨o, s'⟩
  cases o with
  | none =>
    rw [maybe_syn_none sym s s' ha] at h
    simp at h
  | some c =>
    rw [maybe_syn_some sym s s' c ha] at h
    simp only [Prod.mk.injEq] at h
    obtain ⟨-, rfl⟩ := h
    have h3 := (accept_if_some _ s s' c ha).1
    have h4 := skipWs_length s'
    rw [h3]
    simp only [List.length_cons]
    omega

theorem maybe_syn_none_stream (sym : Char) (s s1 : List Char)
    (h : maybe_syn sym s = (none, s1)) : s1 = s := by
  rcases ha : accept_if (fun c => c == sym) s with ⟨o, s'⟩
  cases o with
  | some c =>
    rw [maybe_syn_some sym s s' c ha] at h
    simp at h
  | none =>
    rw [maybe_syn_none sym s s' ha] at h
    simp only [Prod.mk.injEq] at h
    obtain ⟨-, rfl⟩ := h
    exact accept_if_none_stream _ s s' ha

theorem require_ok_consumes (p : Parser α) (s : List Char) (v : α) (s1 : List Char)
    (h : require p s = .ok v s1) : s1.length ≤ s.length :=
  p.ok_consumes s v s1 (require_ok p s v s1 h)

/-- The `while maybe_syntax(sep_by, stream).is_some()` loop of
`parse_list`, carrying the accumulated elements.  `mx` is the `max`
argument of the source.  Termination: each iteration consumes at least the
separator character, and the element parser obeys the `Parse` contract. -/
def listLoop (sep : Char) (mx : Nat) (p : Parser α) (elems : List α) (s : List Char) :
    PResult (List α) :=
  match hsep : maybe_syn sep s with
  | (none, s1) => .ok elems s1
  | (some _, s1) =>
    if elems.length ≥ mx then .fatal "parse_list: parsing multiple items: safety margin exceeded"
    else
      match hreq : require p s1 with
      | .ok v s2 => listLoop sep mx p (elems ++ [v]) s2
      | .absent s2 => .absent s2
      | .fatal m => .fatal m
termination_by s.length
decreasing_by
  have h1 := maybe_syn_some_length sep s s1 _ hsep
  have h2 := require_ok_consumes p s1 v s2 hreq
  omega

/-- `fn parse_list<T: Parse>(sep_by, max, stream) -> Option<Vec<T>>`: one
mandatory first element via `maybe` (its absence, or a panic, propagates),
then the separator loop. -/
def parse_list (sep : Char) (mx : Nat) (p : Parser α) (s : List Char) : PResult (List α) :=
  match maybe p s with
  | .absent s1 => .absent s1
  | .fatal m => .fatal m
  | .ok v s1 => listLoop sep mx p [v] s1

/-- The `Many` trait: separator (default comma) and element-count limit
(default 127). -/
structure Many where
  sep : Char := ','
  limit : Nat := 127

/-- `impl<T: Parse + Many> Parse for Vec<T>`. -/
def vecParse (m : Many) (p : Parser α) (s : List Char) : PResult (List α) :=
  parse_list m.sep m.limit p s

-- Branch lemmas for `listLoop` and `parse_list`.

theorem listLoop_sep_none (sep : Char) (mx : Nat) (p : Parser α) (elems : List α)
    (s s1 : List Char) (hsep : maybe_syn sep s = (none, s1)) :
    listLoop sep mx p elems s = .ok elems s1 := by
  rw [listLoop.eq_def]
  split
  next s1' heq =>
    have h := hsep.symm.trans heq
    simp only [Prod.mk.injEq] at h
    rw [h.2]
  next u s1' heq =>
    rw [hsep] at heq
    simp at heq

theorem listLoop_margin (sep : Char) (mx : Nat) (p : Parser α) (elems : List α)
    (s s1 : List Char) (u : Unit) (hsep : maybe_syn sep s = (some u, s1))
    (hlen : elems.length ≥ mx) :
    listLoop sep mx p elems s = .fatal "parse_list: parsing multiple items: safety margin exceeded" := by
  rw [listLoop.eq_def]
  split
  next s1' heq =>
    rw [hsep] at heq
    simp at heq
  next u' s1' heq =>
    rw [if_pos hlen]

theorem listLoop_step (sep : Char) (mx : Nat) (p : Parser α) (elems : List α)
    (s s1 : List Char) (u : Unit) (v : α) (s2 : List Char)
    (hsep : maybe_syn sep s = (some u, s1)) (hlen : ¬ elems.length ≥ mx)
    (hreq : require p s1 = .ok v s2) :
    listLoop sep mx p elems s = listLoop sep mx p (elems ++ [v]) s2 := by
  rw [listLoop.eq_def]
  split
  next s1' heq =>
    rw [hsep] at heq
    simp at heq
  next u' s1' heq =>
    have h := hsep.symm.trans heq
    simp only [Prod.mk.injEq] at h
    rw [if_neg hlen]
    split
    next v' s2' heq2 =>
      rw [← h.2, hreq] at heq2
      simp only [PResult.ok.injEq] at heq2
      rw [heq2.1, heq2.2]
    next s2' heq2 =>
      rw [← h.2, hreq] at heq2
      simp at heq2
    next m heq2 =>
      rw [← h.2, hreq] at heq2
      simp at heq2

theorem listLoop_req_fatal (sep : Char) (mx : Nat) (p : Parser α) (elems : List α)
    (s s1 : List Char) (u : Unit) (m : String)
    (hsep : maybe_syn sep s = (some u, s1)) (hlen : ¬ elems.length ≥ mx)
    (hreq : require p s1 = .fatal m) :
    listLoop sep mx p elems s = .fatal m := by
  rw [listLoop.eq_def]
  split
  next s1' heq =>
    rw [hsep] at heq
    simp at heq
  next u' s1' heq =>
    have h := hsep.symm.trans heq
    simp only [Prod.mk.injEq] at h
    rw [if_neg hlen]
    split
    next v' s2' heq2 =>
      rw [← h.2, hreq] at heq2
      simp at heq2
    next s2' heq2 =>
      rw [← h.2, hreq] at heq2
      simp at heq2
    next m' heq2 =>
      rw [← h.2, hreq] at heq2
      simp only [PResult.fatal.injEq] at heq2
      rw [heq2]

theorem parse_list_absent (sep : Char) (mx : Nat) (p : Parser α) (s s1 : List Char)
    (h : p.parse s = .absent s1) : parse_list sep mx p s = .absent s1 := by
  simp only [parse_list, maybe, h]

theorem parse_list_fatal_first (sep : Char) (mx : Nat) (p : Parser α) (s : List Char)
    (m : String) (h : p.parse s = .fatal m) : parse_list sep mx p s = .fatal m := by
  simp only [parse_list, maybe, h]

theorem parse_list_ok_start (sep : Char) (mx : Nat) (p : Parser α) (s : List Char)
    (v : α) (s1 : List Char) (h : p.parse s = .ok v s1) :
    parse_list sep mx p s = listLoop sep mx p [v] s1 := by
  simp only [parse_list, maybe, h]

theorem listLoop_invariant (sep : Char) (mx : Nat) (p : Parser α) :
    ∀ n (s : List Char), s.length ≤ n → ∀ (elems out : List α) (s1 : List Char),
      listLoop sep mx p elems s = .ok out s1 →
      (out.length ≤ mx ∨ out = elems) ∧ elems.length ≤ out.length := by
  intro n
  induction n with
  | zero =>
    intro s hs elems out s1 h
    have hs0 : s = [] := List.eq_nil_of_length_eq_zero (Nat.le_zero.mp hs)
    subst hs0
    rw [listLoop_sep_none sep mx p elems [] [] rfl] at h
    simp only [PResult.ok.injEq] at h
    obtain ⟨rfl, -⟩ := h
    exact ⟨Or.inr rfl, Nat.le_refl _⟩
  | succ n ih =>
    intro s hs elems out s1 h
    rcases hsep : maybe_syn sep s with ⟨o, s1'⟩
    cases o with
    | none =>
      rw [listLoop_sep_none sep mx p elems s s1' hsep] at h
      simp only [PResult.ok.injEq] at h
      obtain ⟨rfl, -⟩ := h
      exact ⟨Or.inr rfl, Nat.le_refl _⟩
    | some u =>
      by_cases hlen : elems.length ≥ mx
      · rw [listLoop_margin sep mx p elems s s1' u hsep hlen] at h
        simp at h
      · cases hreq : require p s1' with
        | ok v s2 =>
          rw [listLoop_step sep mx p elems s s1' u v s2 hsep hlen hreq] at h
          have hlt := maybe_syn_some_length sep s s1' u hsep
          have hle := require_ok_consumes p s1' v s2 hreq
          obtain ⟨hA, hB⟩ := ih s2 (by omega) (elems ++ [v]) out s1 h
          refine ⟨?_, ?_⟩
          · rcases hA with hA | hA
            · exact Or.inl hA
            · refine Or.inl ?_
              rw [hA]
              simp only [List.length_append, List.length_cons, List.length_nil]
              omega
          · simp only [List.length_append, List.length_cons, List.length_nil] at hB
            omega
        | absent s2 => exact (require_not_absent p s1' s2 hreq).elim
        | fatal m =>
          rw [listLoop_req_fatal sep mx p elems s s1' u m hsep hlen hreq] at h
          simp at h

theorem listLoop_ok_bound (sep : Char) (mx : Nat) (p : Parser α) (s : List Char)
    (elems out : List α) (s1 : List Char) (h : listLoop sep mx p elems s = .ok out s1) :
    (out.length ≤ mx ∨ out = elems) ∧ elems.length ≤ out.length :=
  listLoop_invariant sep mx p s.length s (Nat.le_refl _) elems out s1 h

/-- A concrete digit-token element parser, named as `require`'s diagnostic
would name the element type. -/
def pd : Parser (List Char) := tokenParser Td "digit"

/-- C6: list parsing: the first element is mandatory — its absence makes
the whole list parse absent with the cursor unchanged; once a separator
has been consumed the next element is mandatory — its absence is fatal
(`require`'s diagnostic); when the separator is absent the loop stops and
returns the accumulated elements; and every successful list parse returns
a non-empty sequence. -/
theorem parse_list_spec (sep : Char) (mx : Nat) (p : Parser α) (s : List Char) :
    (∀ s1, p.parse s = .absent s1 → parse_list sep mx p s = .absent s) ∧
    (∀ u s1 elems s2, maybe_syn sep s = (some u, s1) → elems.length < mx →
      p.parse s1 = .absent s2 →
      listLoop sep mx p elems s = .fatal ("parse error: expected `" ++ p.name ++ "'")) ∧
    (∀ s1 elems, maybe_syn sep s = (none, s1) → listLoop sep mx p elems s = .ok elems s1) ∧
    (∀ out s1, parse_list sep mx p s = .ok out s1 → out ≠ []) := by
  refine ⟨?_, ?_, ?_, ?_⟩
  · intro s1 h
    rw [parse_list_absent sep mx p s s1 h, p.absent_stream s s1 h]
  · intro u s1 elems s2 hsep hlen habs
    exact listLoop_req_fatal sep mx p elems s s1 u _ hsep (by omega)
      (require_fatal_of_absent p s1 s2 habs)
  · intro s1 elems hsep
    exact listLoop_sep_none sep mx p elems s s1 hsep
  · intro out s1 h
    cases hp : p.parse s with
    | absent s2 =>
      rw [parse_list_absent sep mx p s s2 hp] at h
      simp at h
    | fatal m =>
      rw [parse_list_fatal_first sep mx p s m hp] at h
      simp at h
    | ok v s2 =>
      rw [parse_list_ok_start sep mx p s v s2 hp] at h
      have hb := (listLoop_ok_bound sep mx p s2 [v] out s1 h).2
      intro hout
      rw [hout] at hb
      simp at hb

theorem parse_list_spec_witness :
    parse_list ',' 127 pd ['x'] = .absent ['x'] ∧
    listLoop ',' 127 pd [['1']] [','] = .fatal "parse error: expected `digit'" ∧
    listLoop ',' 127 pd [['1']] ['a'] = .ok [['1']] ['a'] ∧
    ([['1']] : List (List Char)) ≠ [] := by
  refine ⟨?_, ?_, ?_, ?_⟩
  · exact (parse_list_spec ',' 127 pd ['x']).1 ['x'] (by decide)
  · have h := (parse_list_spec ',' 127 pd [',']).2.1 () [] [['1']] []
      (by decide) (by decide) (by decide)
    rw [h]
    decide
  · exact (parse_list_spec ',' 127 pd ['a']).2.2.1 ['a'] [['1']] (by decide)
  · have h1 : pd.parse ['1'] = .ok ['1'] [] := by decide
    have h := (parse_list_ok_start ',' 127 pd ['1'] ['1'] [] h1).trans
      (listLoop_sep_none ',' 127 pd [['1']] [] [] rfl)
    exact (parse_list_spec ',' 127 pd ['1']).2.2.2 [['1']] [] h

/-- C7 (amended): the element-count guard fires when a further separator
is present while the accumulated count has already reached the limit,
before the next element is parsed; consequently every successful list
parse returns at most `max` elements — except that a single-element list
(no separator ever consumed) is returned without the count being checked
at all, so it succeeds even when `max = 0`.  Reaching the limit does not
by itself abort the parse: a list of exactly `max` elements with no
trailing separator succeeds (see `parse_list_limit_reached_ok`). -/
theorem parse_list_safety_margin (sep : Char) (mx : Nat) (p : Parser α) (s : List Char) :
    (∀ u s1 elems, maybe_syn sep s = (some u, s1) → elems.length ≥ mx →
      listLoop sep mx p elems s =
        .fatal "parse_list: parsing multiple items: safety margin exceeded") ∧
    (∀ out s1, parse_list sep mx p s = .ok out s1 → out.length ≤ mx ∨ out.length = 1) := by
  constructor
  · intro u s1 elems hsep hlen
    exact listLoop_margin sep mx p elems s s1 u hsep hlen
  · intro out s1 h
    cases hp : p.parse s with
    | absent s2 =>
      rw [parse_list_absent sep mx p s s2 hp] at h
      simp at h
    | fatal m =>
      rw [parse_list_fatal_first sep mx p s m hp] at h
      simp at h
    | ok v s2 =>
      rw [parse_list_ok_start sep mx p s v s2 hp] at h
      rcases (listLoop_ok_bound sep mx p s2 [v] out s1 h).1 with hb | hb
      · exact Or.inl hb
      · rw [hb]
        exact Or.inr rfl

theorem parse_list_safety_margin_witness :
    listLoop ',' 1 pd [['1']] [',', '2'] =
      .fatal "parse_list: parsing multiple items: safety margin exceeded" ∧
    (([['1']] : List (List Char)).length ≤ 1 ∨ ([['1']] : List (List Char)).length = 1) := by
  constructor
  · exact (parse_list_safety_margin ',' 1 pd [',', '2']).1 () ['2'] [['1']]
      (by decide) (by decide)
  · have h1 : pd.parse ['1'] = .ok ['1'] [] := by decide
    have h := (parse_list_ok_start ',' 1 pd ['1'] ['1'] [] h1).trans
      (listLoop_sep_none ',' 1 pd [['1']] [] [] rfl)
    exact (parse_list_safety_margin ',' 1 pd ['1']).2 [['1']] [] h

/-- C7 counterexample: with limit 1 on input `1`, the element count
reaches the configured limit (one element) and yet the parse succeeds:
the guard only fires when a further separator is present. -/
theorem parse_list_limit_reached_ok :
    parse_list ',' 1 pd ['1'] = .ok [['1']] [] ∧
    ([['1']] : List (List Char)).length = 1 := by
  constructor
  · rw [parse_list_ok_start ',' 1 pd ['1'] ['1'] [] (by decide),
      listLoop_sep_none ',' 1 pd [['1']] [] [] rfl]
  · rfl
